/-
Verification of the date-bucketing and holiday-calculation core of the
provider-schedule viewer (src/app/components/ProviderScheduleViewer.tsx).

Modelling conventions (shallow embedding):
* A calendar date is an `Int`: the number of days since 1970-01-01 (local
  midnight).  All the modelled logic normalises times to midnight, so the
  time-of-day component of a JS `Date` is dropped.
* `jsDay d` is JavaScript's `Date.getDay()`: 0 = Sunday … 6 = Saturday
  (1970-01-01 was a Thursday, so day 0 has `jsDay = 4`).
* `daysFromCivil`/`civilFromDays` convert between `(year, month, day)`
  (month 1–12, day-of-month 1-based) and the day number, by the standard
  era-based Gregorian algorithm; they model JS `new Date(y, m, d)`
  construction and the accessors `getFullYear`/`getMonth`/`getDate`
  (JS months are 0-indexed; the model keeps months 1-indexed, and the
  0-indexed accessor `getMonth` subtracts 1 accordingly).
* JS objects used as string-keyed maps keep insertion order, so they are
  modelled as association lists where a new key is appended at the end.
-/
import Mathlib

namespace PSV

/-- JS `Date.getDay()` for the day number `d`: 0 = Sunday … 6 = Saturday. -/
def jsDay (d : Int) : Int := (d + 4) % 7

/-- Day number of the civil date (y, m, d), months 1–12, day 1-based.
Standard era-based conversion (floor divisions). -/
def daysFromCivil (y m d : Int) : Int :=
  let y2 := y - (if m ≤ 2 then 1 else 0)
  let era := y2 / 400
  let yoe := y2 - era * 400
  let mp := if m ≤ 2 then m + 9 else m - 3
  let doy := (153 * mp + 2) / 5 + d - 1
  let doe := yoe * 365 + yoe / 4 - yoe / 100 + doy
  era * 146097 + doe - 719468

/-- Civil date (y, m, d) of a day number, inverse of `daysFromCivil`. -/
def civilFromDays (z : Int) : Int × Int × Int :=
  let z2 := z + 719468
  let era := z2 / 146097
  let doe := z2 - era * 146097
  let yoe := (doe - doe / 1460 + doe / 36524 - doe / 146096) / 365
  let y := yoe + era * 400
  let doy := doe - (365 * yoe + yoe / 4 - yoe / 100)
  let mp := (5 * doy + 2) / 153
  let d := doy - (153 * mp + 2) / 5 + 1
  let m := mp + (if mp < 10 then 3 else -9)
  (if m ≤ 2 then y + 1 else y, m, d)

/-- JS `Date.getFullYear()`. -/
def getFullYear (z : Int) : Int := (civilFromDays z).1

/-- JS `Date.getMonth()` (0-indexed month, 0 = January). -/
def getMonth (z : Int) : Int := (civilFromDays z).2.1 - 1

/-- JS `Date.getDate()` (day of month, 1-based). -/
def getDate (z : Int) : Int := (civilFromDays z).2.2

set_option maxHeartbeats 4000000 in
/-- Recovery of the year-of-era from the day-of-era (the one step of the civil
conversion that needs more than linear reasoning: solved by cases on `yoe`). -/
theorem yoe_recover (yoe doy doe : Int) (h1 : 0 ≤ yoe) (h2 : yoe ≤ 399)
    (h3 : 0 ≤ doy) (h4 : doy ≤ 336)
    (hdoe : doe = yoe * 365 + yoe / 4 - yoe / 100 + doy) :
    (doe - doe / 1460 + doe / 36524 - doe / 146096) / 365 = yoe := by
  interval_cases yoe <;> omega

/-- Recovery of the shifted month index from the day-of-year. -/
theorem mp_recover (mp d doy : Int) (hmp1 : 0 ≤ mp) (hmp2 : mp ≤ 10)
    (hd1 : 1 ≤ d) (hd2 : d ≤ if mp = 1 ∨ mp = 3 ∨ mp = 6 ∨ mp = 8 then 30 else 31)
    (hdoy : doy = (153 * mp + 2) / 5 + d - 1) :
    (5 * doy + 2) / 153 = mp := by
  interval_cases mp <;> simp_all <;> omega

/-- `civilFromDays` evaluated at a day number written in era/day-of-era form,
with the intermediate quantities named and bounded (`mp ≤ 10`: February,
`mp = 11`, is excluded — no holiday computation needs it). -/
theorem civilFromDays_structured (era yoe mp doy doe d m y : Int)
    (hyoe1 : 0 ≤ yoe) (hyoe2 : yoe ≤ 399)
    (hmp1 : 0 ≤ mp) (hmp2 : mp ≤ 10)
    (hd1 : 1 ≤ d) (hd2 : d ≤ if mp = 1 ∨ mp = 3 ∨ mp = 6 ∨ mp = 8 then 30 else 31)
    (hdoy : doy = (153 * mp + 2) / 5 + d - 1)
    (hdoe : doe = yoe * 365 + yoe / 4 - yoe / 100 + doy)
    (hm : m = mp + (if mp < 10 then 3 else -9))
    (hy : y = (if m ≤ 2 then yoe + era * 400 + 1 else yoe + era * 400)) :
    civilFromDays (era * 146097 + doe - 719468) = (y, m, d) := by
  have hdoy1 : 0 ≤ doy := by split_ifs at hd2 <;> omega
  have hdoy2 : doy ≤ 336 := by split_ifs at hd2 <;> omega
  have hdoe1 : 0 ≤ doe := by omega
  have hdoe2 : doe ≤ 146096 := by omega
  simp only [civilFromDays, Prod.mk.injEq]
  have e0 : era * 146097 + doe - 719468 + 719468 = era * 146097 + doe := by omega
  rw [e0]
  have e1 : (era * 146097 + doe) / 146097 = era := by omega
  rw [e1]
  have e2 : era * 146097 + doe - era * 146097 = doe := by omega
  rw [e2]
  have e3 : (doe - doe / 1460 + doe / 36524 - doe / 146096) / 365 = yoe :=
    yoe_recover yoe doy doe hyoe1 hyoe2 hdoy1 hdoy2 hdoe
  rw [e3]
  have e4 : doe - (365 * yoe + yoe / 4 - yoe / 100) = doy := by omega
  rw [e4]
  have e5 : (5 * doy + 2) / 153 = mp := mp_recover mp d doy hmp1 hmp2 hd1 hd2 hdoy
  rw [e5]
  have e6 : doy - (153 * mp + 2) / 5 + 1 = d := by omega
  rw [e6]
  split_ifs at * <;> omega

set_option maxHeartbeats 1000000 in
/-- Round trip: converting a valid civil date (February excluded — no holiday
needs it) to a day number and back returns the same civil date. -/
theorem civilFromDays_daysFromCivil (y m d : Int)
    (hm1 : 1 ≤ m) (hm2 : m ≤ 12) (hm3 : m ≠ 2) (hd1 : 1 ≤ d)
    (hd2 : d ≤ if m = 4 ∨ m = 6 ∨ m = 9 ∨ m = 11 then 30 else 31) :
    civilFromDays (daysFromCivil y m d) = (y, m, d) := by
  have hdfc : daysFromCivil y m d =
      (y - (if m ≤ 2 then 1 else 0)) / 400 * 146097 +
        ((y - (if m ≤ 2 then 1 else 0)) -
            (y - (if m ≤ 2 then 1 else 0)) / 400 * 400) * 365 +
          ((y - (if m ≤ 2 then 1 else 0)) -
              (y - (if m ≤ 2 then 1 else 0)) / 400 * 400) / 4 -
          ((y - (if m ≤ 2 then 1 else 0)) -
              (y - (if m ≤ 2 then 1 else 0)) / 400 * 400) / 100 +
          ((153 * (if m ≤ 2 then m + 9 else m - 3) + 2) / 5 + d - 1) -
        719468 := by
    simp only [daysFromCivil]; ring
  rw [hdfc]
  have h := civilFromDays_structured
      ((y - (if m ≤ 2 then 1 else 0)) / 400)
      ((y - (if m ≤ 2 then 1 else 0)) - (y - (if m ≤ 2 then 1 else 0)) / 400 * 400)
      (if m ≤ 2 then m + 9 else m - 3)
      ((153 * (if m ≤ 2 then m + 9 else m - 3) + 2) / 5 + d - 1)
      (((y - (if m ≤ 2 then 1 else 0)) - (y - (if m ≤ 2 then 1 else 0)) / 400 * 400) * 365 +
        ((y - (if m ≤ 2 then 1 else 0)) - (y - (if m ≤ 2 then 1 else 0)) / 400 * 400) / 4 -
        ((y - (if m ≤ 2 then 1 else 0)) - (y - (if m ≤ 2 then 1 else 0)) / 400 * 400) / 100 +
        ((153 * (if m ≤ 2 then m + 9 else m - 3) + 2) / 5 + d - 1))
      d m y
      (by split_ifs <;> omega) (by split_ifs <;> omega)
      (by split_ifs <;> omega) (by split_ifs <;> omega)
      hd1 (by split_ifs at * <;> omega)
      rfl rfl (by split_ifs at * <;> omega) (by split_ifs at * <;> omega)
  have e : (y - (if m ≤ 2 then 1 else 0)) / 400 * 146097 +
        ((y - (if m ≤ 2 then 1 else 0)) -
            (y - (if m ≤ 2 then 1 else 0)) / 400 * 400) * 365 +
          ((y - (if m ≤ 2 then 1 else 0)) -
              (y - (if m ≤ 2 then 1 else 0)) / 400 * 400) / 4 -
          ((y - (if m ≤ 2 then 1 else 0)) -
              (y - (if m ≤ 2 then 1 else 0)) / 400 * 400) / 100 +
          ((153 * (if m ≤ 2 then m + 9 else m - 3) + 2) / 5 + d - 1) -
        719468 =
      (y - (if m ≤ 2 then 1 else 0)) / 400 * 146097 +
        (((y - (if m ≤ 2 then 1 else 0)) - (y - (if m ≤ 2 then 1 else 0)) / 400 * 400) * 365 +
          ((y - (if m ≤ 2 then 1 else 0)) - (y - (if m ≤ 2 then 1 else 0)) / 400 * 400) / 4 -
          ((y - (if m ≤ 2 then 1 else 0)) - (y - (if m ≤ 2 then 1 else 0)) / 400 * 400) / 100 +
          ((153 * (if m ≤ 2 then m + 9 else m - 3) + 2) / 5 + d - 1)) - 719468 := by
    ring
  rw [e]
  exact h

/-- `daysFromCivil` is linear in the day-of-month component. -/
theorem daysFromCivil_shift (y m d k : Int) :
    daysFromCivil y m (d + k) = daysFromCivil y m d + k := by
  simp only [daysFromCivil]; ring

/-! ## Week anchoring (lines 74–80 and 110–116 of the component)

`mondayOffset` is the source's `currentDay === 0 ? -6 : 1 - currentDay`;
`weekAnchor` applies it to a date's own weekday, giving the Monday starting
the week that contains the date. -/

/-- The source's Monday offset for a weekday (`getDay()` convention,
0 = Sunday): `day === 0 ? -6 : 1 - day`. -/
def mondayOffset (day : Int) : Int := if day = 0 then -6 else 1 - day

/-- The week anchor of a date: the date plus the Monday offset of its weekday
(JS: `startOfWeek.setDate(date.getDate() + mondayOffset)`). -/
def weekAnchor (d : Int) : Int := d + mondayOffset (jsDay d)

/-! ## Holidays (`getHolidays` / `isHoliday`, lines 38–72)

The source walks a `Date` one day at a time in a `while` loop until its
weekday hits a target.  The loop is modelled with explicit fuel; fuel 7 is
enough, since any 7 consecutive days contain every weekday once
(`stepsFwd_le` / `stepsBack_le` below make this exact). -/

/-- Walk forward one day at a time until the weekday equals `target`
(at most `fuel` steps; the source's `while (d.getDay() !== target) d++`). -/
def walkFwdTo (target : Int) : Nat → Int → Int
  | 0, d => d
  | n + 1, d => if jsDay d = target then d else walkFwdTo target n (d + 1)

/-- Walk backward one day at a time until the weekday equals `target`
(at most `fuel` steps; the source's `while (d.getDay() !== target) d--`). -/
def walkBackTo (target : Int) : Nat → Int → Int
  | 0, d => d
  | n + 1, d => if jsDay d = target then d else walkBackTo target n (d - 1)

/-- Number of forward steps from `d` to the next day with weekday `target`. -/
def stepsFwd (target d : Int) : Nat := ((target - jsDay d) % 7).toNat

/-- Number of backward steps from `d` to the previous day with weekday
`target`. -/
def stepsBack (target d : Int) : Nat := ((jsDay d - target) % 7).toNat

theorem stepsFwd_le (target d : Int) : stepsFwd target d ≤ 6 := by
  simp only [stepsFwd, jsDay]; omega

theorem stepsBack_le (target d : Int) : stepsBack target d ≤ 6 := by
  simp only [stepsBack, jsDay]; omega

/-- With enough fuel, the forward walk takes exactly `stepsFwd` steps and
stops on a day whose weekday is `target`. -/
theorem walkFwdTo_eq (t : Int) (ht1 : 0 ≤ t) (ht2 : t < 7) :
    ∀ (n : Nat) (d : Int), stepsFwd t d ≤ n →
      walkFwdTo t n d = d + stepsFwd t d ∧ jsDay (d + stepsFwd t d) = t
  | 0, d, h => by
    have h0 : stepsFwd t d = 0 := Nat.le_zero.mp h
    refine ⟨by simp [walkFwdTo, h0], ?_⟩
    simp only [stepsFwd, jsDay] at *
    omega
  | n + 1, d, h => by
    by_cases hd : jsDay d = t
    · have h0 : stepsFwd t d = 0 := by simp only [stepsFwd, jsDay] at *; omega
      exact ⟨by simp [walkFwdTo, hd, h0], by simp [h0, hd]⟩
    · have h1 : stepsFwd t (d + 1) + 1 = stepsFwd t d := by
        simp only [stepsFwd, jsDay] at *
        omega
      have ih := walkFwdTo_eq t ht1 ht2 n (d + 1) (by omega)
      have hsum : d + 1 + (stepsFwd t (d + 1) : Int) = d + (stepsFwd t d : Int) := by
        omega
      refine ⟨?_, by rw [← hsum]; exact ih.2⟩

      rw [walkFwdTo, if_neg hd, ih.1, hsum]

/-- With enough fuel, the backward walk takes exactly `stepsBack` steps and
stops on a day whose weekday is `target`. -/
theorem walkBackTo_eq (t : Int) (ht1 : 0 ≤ t) (ht2 : t < 7) :
    ∀ (n : Nat) (d : Int), stepsBack t d ≤ n →
      walkBackTo t n d = d - stepsBack t d ∧ jsDay (d - stepsBack t d) = t
  | 0, d, h => by
    have h0 : stepsBack t d = 0 := Nat.le_zero.mp h
    refine ⟨by simp [walkBackTo, h0], ?_⟩
    simp only [stepsBack, jsDay] at *
    omega
  | n + 1, d, h => by
    by_cases hd : jsDay d = t
    · have h0 : stepsBack t d = 0 := by simp only [stepsBack, jsDay] at *; omega
      exact ⟨by simp [walkBackTo, hd, h0], by simp [h0, hd]⟩
    · have h1 : stepsBack t (d - 1) + 1 = stepsBack t d := by
        simp only [stepsBack, jsDay] at *
        omega
      have ih := walkBackTo_eq t ht1 ht2 n (d - 1) (by omega)
      have hsum : d - 1 - (stepsBack t (d - 1) : Int) = d - (stepsBack t d : Int) := by
        omega
      refine ⟨?_, by rw [← hsum]; exact ih.2⟩
      rw [walkBackTo, if_neg hd, ih.1, hsum]

/-- A holiday: a name and a date (source lines 6–9). -/
structure Holiday where
  name : String
  date : Int
deriving DecidableEq

/-- The source's `getHolidays(year)` (lines 38–64): three fixed dates and
three floating ones computed by weekday walks. -/
def getHolidays (year : Int) : List Holiday :=
  [ { name := "New Year's Day", date := daysFromCivil year 1 1 },
    { name := "Memorial Day", date := walkBackTo 1 7 (daysFromCivil year 5 31) },
    { name := "Independence Day", date := daysFromCivil year 7 4 },
    { name := "Labor Day", date := walkFwdTo 1 7 (daysFromCivil year 9 1) },
    { name := "Thanksgiving", date := walkFwdTo 4 7 (daysFromCivil year 11 1) + 21 },
    { name := "Christmas", date := daysFromCivil year 12 25 } ]

/-- The source's `isHoliday(date)` (lines 66–72): the first holiday of the
date's own year whose day-of-month and month match the date. -/
def isHoliday (date : Int) : Option Holiday :=
  (getHolidays (getFullYear date)).find? fun holiday =>
    getDate holiday.date == getDate date && getMonth holiday.date == getMonth date

/-! ## Appointments and week bucketing (`processCSV`, lines 89–163) -/

/-- A parsed appointment row (source lines 18–22, after `Papa.parse` and the
row-mapping at lines 102–107).  The date is already normalised to midnight.  -/
structure Appointment where
  date : Int
  provider : String
  patientCount : Int
deriving DecidableEq

/-- Insertion into a JS object used as a map from keys to arrays
(`if (!acc[k]) acc[k] = []; acc[k].push(row)`): an existing key keeps its
position and gets the value appended; a new key is appended at the end,
matching JS string-key insertion order. -/
def addToGroup {κ α : Type} [DecidableEq κ] (k : κ) (a : α) :
    List (κ × List α) → List (κ × List α)
  | [] => [(k, [a])]
  | (k2, l) :: rest =>
    if k2 = k then (k2, l ++ [a]) :: rest else (k2, l) :: addToGroup k a rest

/-- The source's `groupedByWeek` reduce (lines 110–124): group rows by the
ISO-string week key of their anchor Monday (modelled by the anchor's day
number). -/
def groupByWeek (rows : List Appointment) : List (Int × List Appointment) :=
  rows.foldl (fun acc row => addToGroup (weekAnchor row.date) row acc) []

/-- The per-week provider sub-grouping (lines 139–145). -/
def groupByProvider (apps : List Appointment) : List (String × List Appointment) :=
  apps.foldl (fun acc app => addToGroup app.provider app acc) []

/-- One week bucket (source interface `WeekData`, lines 24–30). -/
structure WeekData where
  weekStart : Int
  appointments : List (String × List Appointment)
  isCurrent : Bool
deriving DecidableEq

/-- The uniqueProviders extraction (line 126):
`Array.from(new Set(parsedData.map(row => row.provider))).filter(Boolean)` —
first-occurrence de-duplication, then removal of falsy (empty) names. -/
def insertUnique (acc : List String) (s : String) : List String :=
  if s ∈ acc then acc else acc ++ [s]

def uniqueProviders (rows : List Appointment) : List String :=
  ((rows.map (fun r => r.provider)).foldl insertUnique []).filter fun s => ¬s = ""

/-- Week ordering used by the sort comparator at line 150
(`(a, b) => a.weekStart.getTime() - b.weekStart.getTime()`). -/
def weekLE (a b : WeekData) : Prop := a.weekStart ≤ b.weekStart

instance : DecidableRel weekLE := fun a b => Int.decLe a.weekStart b.weekStart

instance : IsTotal WeekData weekLE := ⟨fun a b => Int.le_total a.weekStart b.weekStart⟩

instance : IsTrans WeekData weekLE := ⟨fun _ _ _ => Int.le_trans⟩

/-- The sort at line 150.  JS `Array.sort` with this comparator returns the
list ordered by `weekStart`; it is modelled by insertion sort (the keys are
pairwise distinct, so every correct sort returns the same list). -/
def sortWeeks (l : List WeekData) : List WeekData := List.insertionSort weekLE l

/-- Result of a successful parse-and-bucket run: what the three `set…` calls
at lines 153–157 receive. -/
structure BucketResult where
  weeks : List WeekData
  providers : List String
  currentWeekIndex : Option Nat
deriving DecidableEq

/-- The pure core of `processCSV` (lines 102–157), with "today" a parameter:
group rows by week anchor, sub-group by provider, mark the bucket of today's
anchor current, sort by week start, and locate the current week's index
(`findIndex` returning `-1` is modelled by `Option`). -/
def processRecords (rows : List Appointment) (today : Int) : BucketResult :=
  let grouped := groupByWeek rows
  let currentWeekKey := weekAnchor today
  let wd := grouped.map fun p =>
    { weekStart := p.1
      appointments := groupByProvider p.2
      isCurrent := p.1 == currentWeekKey : WeekData }
  let sorted := sortWeeks wd
  { weeks := sorted
    providers := uniqueProviders rows
    currentWeekIndex := sorted.findIdx? fun w => w.isCurrent }

/-- The day-cell lookup of the rendering grid (lines 236–246): cell `i` of a
week row shows the date `weekStart + i + 1` and takes the patient count of
the first of the provider's appointments dated one day after that
(`nextDay`), defaulting to 0. -/
def dayCellCount (week : WeekData) (provider : String) (i : Nat) : Int :=
  let date := week.weekStart + (i : Int) + 1
  let nextDay := date + 1
  let providerApps := ((week.appointments.find? fun p => p.1 == provider).map Prod.snd).getD []
  let dayAppointments := providerApps.filter fun app => app.date == nextDay
  ((dayAppointments.head?).map fun a => a.patientCount).getD 0

/-- The component's in-memory state (lines 33–35). -/
structure ViewerState where
  currentWeekIndex : Nat
  weeks : List WeekData
  providers : List String
deriving DecidableEq

/-- The load operation `processCSV` (lines 89–163) at the state level.  The
input is the outcome of reading-and-parsing the file: a thrown error
anywhere before the `complete` callback lands in the top-level `catch`,
which only logs — no state setter runs.  On success the three setters run
(`setCurrentWeekIndex` only when `findIndex` found the current week). -/
def processCSV (st : ViewerState) (input : Except String (List Appointment))
    (today : Int) : ViewerState :=
  match input with
  | .error _ => st
  | .ok rows =>
    let r := processRecords rows today
    let st1 := { st with weeks := r.weeks, providers := r.providers }
    match r.currentWeekIndex with
    | some i => { st1 with currentWeekIndex := i }
    | none => st1

/-! ## Properties of the grouping fold -/

theorem addToGroup_keys {κ α : Type} [DecidableEq κ] (k : κ) (a : α)
    (l : List (κ × List α)) :
    (addToGroup k a l).map Prod.fst =
      if k ∈ l.map Prod.fst then l.map Prod.fst else l.map Prod.fst ++ [k] := by
  induction l with
  | nil => simp [addToGroup]
  | cons p rest ih =>
    obtain ⟨k2, vs⟩ := p
    by_cases h : k2 = k
    · subst h
      simp [addToGroup]
    · by_cases h2 : k ∈ rest.map Prod.fst <;>
        simp [addToGroup, h, ih, h2, Ne.symm h]

theorem addToGroup_nodup_keys {κ α : Type} [DecidableEq κ] (k : κ) (a : α)
    (l : List (κ × List α)) (hn : (l.map Prod.fst).Nodup) :
    ((addToGroup k a l).map Prod.fst).Nodup := by
  rw [addToGroup_keys]
  split_ifs with h
  · exact hn
  · simp [List.nodup_append, hn, h]

theorem addToGroup_mem {κ α : Type} [DecidableEq κ] (P : κ → α → Prop) (k : κ)
    (a : α) (l : List (κ × List α)) :
    (∀ p ∈ l, ∀ x ∈ p.2, P p.1 x) → P k a →
      ∀ p ∈ addToGroup k a l, ∀ x ∈ p.2, P p.1 x := by
  induction l with
  | nil =>
    intro _ ha p hp x hx
    simp only [addToGroup, List.mem_singleton] at hp
    subst hp
    simp only [List.mem_singleton] at hx
    subst hx
    exact ha
  | cons q rest ih =>
    intro hl ha p hp x hx
    obtain ⟨k2, vs⟩ := q
    simp only [addToGroup] at hp
    split_ifs at hp with h
    · rcases List.mem_cons.mp hp with h1 | h1
      · subst h1
        rcases List.mem_append.mp hx with h2 | h2
        · exact hl (k2, vs) (List.mem_cons_self _ _) x h2
        · simp only [List.mem_singleton] at h2
          subst h2
          subst h
          exact ha
      · exact hl p (List.mem_cons_of_mem _ h1) x hx
    · rcases List.mem_cons.mp hp with h1 | h1
      · subst h1
        exact hl (k2, vs) (List.mem_cons_self _ _) x hx
      · exact ih (fun q hq => hl q (List.mem_cons_of_mem _ hq)) ha p h1 x hx

theorem foldl_addToGroup_mem {κ : Type} [DecidableEq κ] (key : Appointment → κ)
    (P : κ → Appointment → Prop) :
    ∀ (rows : List Appointment) (acc : List (κ × List Appointment)),
      (∀ r ∈ rows, P (key r) r) →
      (∀ p ∈ acc, ∀ x ∈ p.2, P p.1 x) →
      ∀ p ∈ rows.foldl (fun acc r => addToGroup (key r) r acc) acc,
        ∀ x ∈ p.2, P p.1 x
  | [], acc, _, hacc => hacc
  | r :: rest, acc, hrows, hacc => by
    simp only [List.foldl_cons]
    exact foldl_addToGroup_mem key P rest _
      (fun q hq => hrows q (List.mem_cons_of_mem _ hq))
      (addToGroup_mem P (key r) r acc hacc (hrows r (List.mem_cons_self _ _)))

theorem foldl_addToGroup_nodup {κ : Type} [DecidableEq κ] (key : Appointment → κ) :
    ∀ (rows : List Appointment) (acc : List (κ × List Appointment)),
      (acc.map Prod.fst).Nodup →
      ((rows.foldl (fun acc r => addToGroup (key r) r acc) acc).map Prod.fst).Nodup
  | [], _, hacc => hacc
  | r :: rest, acc, hacc => by
    simp only [List.foldl_cons]
    exact foldl_addToGroup_nodup key rest _ (addToGroup_nodup_keys (key r) r acc hacc)

/-- Every appointment stored in a week group has that group's key as the
anchor of its date. -/
theorem groupByWeek_anchor (rows : List Appointment) :
    ∀ p ∈ groupByWeek rows, ∀ x ∈ p.2, weekAnchor x.date = p.1 :=
  foldl_addToGroup_mem (fun r => weekAnchor r.date)
    (fun k x => weekAnchor x.date = k) rows [] (fun _ _ => rfl) (by simp)

/-- The week groups have pairwise distinct keys. -/
theorem groupByWeek_nodup (rows : List Appointment) :
    ((groupByWeek rows).map Prod.fst).Nodup :=
  foldl_addToGroup_nodup (fun r => weekAnchor r.date) rows [] (by simp)

/-- Every appointment stored in a provider group comes from the grouped
list. -/
theorem groupByProvider_mem (apps : List Appointment) :
    ∀ p ∈ groupByProvider apps, ∀ x ∈ p.2, x ∈ apps :=
  foldl_addToGroup_mem (fun r => r.provider) (fun _ x => x ∈ apps) apps []
    (fun r hr => hr) (by simp)

/-! ## The processRecords-level invariants -/

theorem weekAnchor_bounds (d : Int) : weekAnchor d ≤ d ∧ d ≤ weekAnchor d + 6 := by
  simp only [weekAnchor, mondayOffset, jsDay]
  split_ifs <;> omega

/-- Membership in the sorted week list is membership in the mapped group
list. -/
theorem mem_processRecords_weeks {rows : List Appointment} {today : Int}
    {w : WeekData} (hw : w ∈ (processRecords rows today).weeks) :
    ∃ p ∈ groupByWeek rows,
      w = { weekStart := p.1
            appointments := groupByProvider p.2
            isCurrent := p.1 == weekAnchor today } := by
  have hmem : w ∈ sortWeeks ((groupByWeek rows).map fun p =>
      { weekStart := p.1
        appointments := groupByProvider p.2
        isCurrent := p.1 == weekAnchor today : WeekData }) := hw
  have hperm := List.perm_insertionSort weekLE ((groupByWeek rows).map fun p =>
      { weekStart := p.1
        appointments := groupByProvider p.2
        isCurrent := p.1 == weekAnchor today : WeekData })
  have hmem2 := hperm.subset hmem
  obtain ⟨p, hp, hpe⟩ := List.mem_map.mp hmem2
  exact ⟨p, hp, hpe.symm⟩

/-- C3 core: every appointment stored in a bucket (under any provider) falls
in the bucket's 7-day range. -/
theorem processRecords_dates_in_range (rows : List Appointment) (today : Int) :
    ∀ w ∈ (processRecords rows today).weeks, ∀ pr ∈ w.appointments,
      ∀ a ∈ pr.2, w.weekStart ≤ a.date ∧ a.date ≤ w.weekStart + 6 := by
  intro w hw pr hpr a ha
  obtain ⟨p, hp, hpe⟩ := mem_processRecords_weeks hw
  subst hpe
  have hin : a ∈ p.2 := groupByProvider_mem p.2 pr hpr a ha
  have hanchor : weekAnchor a.date = p.1 := groupByWeek_anchor rows p hp a hin
  have hb := weekAnchor_bounds a.date
  simp only at *
  omega

/-- The mapped week list has pairwise distinct `weekStart`s. -/
theorem weeklyData_nodup (rows : List Appointment) (today : Int) :
    (((groupByWeek rows).map fun p =>
        { weekStart := p.1
          appointments := groupByProvider p.2
          isCurrent := p.1 == weekAnchor today : WeekData }).map
      WeekData.weekStart).Nodup := by
  have h := groupByWeek_nodup rows
  rw [List.map_map]
  exact h

/-- C4 core: the sorted weeks are strictly ascending by `weekStart` (hence no
two buckets share a `weekStart`). -/
theorem processRecords_weeks_strict_sorted (rows : List Appointment) (today : Int) :
    List.Pairwise (fun a b => a.weekStart < b.weekStart)
      (processRecords rows today).weeks := by
  set wd := (groupByWeek rows).map fun p =>
    { weekStart := p.1
      appointments := groupByProvider p.2
      isCurrent := p.1 == weekAnchor today : WeekData } with hwd
  have hsorted : List.Pairwise weekLE (sortWeeks wd) :=
    List.sorted_insertionSort weekLE wd
  have hperm : List.Perm (sortWeeks wd) wd := List.perm_insertionSort weekLE wd
  have hnd : ((sortWeeks wd).map WeekData.weekStart).Nodup :=
    ((hperm.map WeekData.weekStart).nodup_iff).mpr (weeklyData_nodup rows today)
  have hne : List.Pairwise (fun a b : WeekData => a.weekStart ≠ b.weekStart)
      (sortWeeks wd) := (List.pairwise_map).mp hnd
  have hcomb := hsorted.and hne
  exact hcomb.imp fun h => lt_of_le_of_ne h.1 h.2

/-- At most one element of a week list whose `weekStart`s are distinct and
whose `isCurrent` flag means `weekStart = key` is current. -/
theorem filter_current_len (key : Int) :
    ∀ l : List WeekData, ((l.map WeekData.weekStart).Nodup) →
      (∀ w ∈ l, w.isCurrent = true ↔ w.weekStart = key) →
      (l.filter fun w => w.isCurrent).length ≤ 1
  | [], _, _ => by simp
  | w :: rest, hnd, hcur => by
    rw [List.map_cons, List.nodup_cons] at hnd
    by_cases h : w.isCurrent
    · have hkey : w.weekStart = key := (hcur w (List.mem_cons_self _ _)).mp h
      have hrest : rest.filter (fun w => w.isCurrent) = [] := by
        rw [List.filter_eq_nil_iff]
        intro x hx hcx
        have hxkey : x.weekStart = key :=
          (hcur x (List.mem_cons_of_mem _ hx)).mp (by simpa using hcx)
        exact hnd.1 (by
          rw [← hkey, ← hxkey] at *
          exact List.mem_map_of_mem WeekData.weekStart hx)
      simp [List.filter_cons, h, hrest]
    · have := filter_current_len key rest hnd.2
        (fun x hx => hcur x (List.mem_cons_of_mem _ hx))
      simpa [List.filter_cons, h]

/-- C5 core, part 2: a bucket is current exactly when its `weekStart` is the
anchor of `today`. -/
theorem processRecords_isCurrent_iff (rows : List Appointment) (today : Int) :
    ∀ w ∈ (processRecords rows today).weeks,
      w.isCurrent = true ↔ w.weekStart = weekAnchor today := by
  intro w hw
  obtain ⟨p, _, hpe⟩ := mem_processRecords_weeks hw
  subst hpe
  simp

/-! ## Provider extraction (C8): the fold refines first-occurrence
de-duplication -/

/-- Specification-side description of "distinct values ordered by first
occurrence, duplicates removed": keep the head, drop its later duplicates,
recurse. -/
def specDistinct : List String → List String
  | [] => []
  | s :: rest => s :: specDistinct (rest.filter fun t => ¬t = s)
  termination_by l => l.length
  decreasing_by
    simp only [List.length_cons]
    exact Nat.lt_succ_of_le (List.length_filter_le _ _)

theorem specDistinct_cons (s : String) (rest : List String) :
    specDistinct (s :: rest) = s :: specDistinct (rest.filter fun t => ¬t = s) := by
  rw [specDistinct.eq_def]

theorem foldl_insertUnique_eq :
    ∀ (l : List String) (acc : List String),
      l.foldl insertUnique acc = acc ++ specDistinct (l.filter fun s => ¬s ∈ acc)
  | [], acc => by simp [specDistinct]
  | s :: rest, acc => by
    by_cases h : s ∈ acc
    · have hsf : ((s :: rest).filter fun t => ¬t ∈ acc) =
          rest.filter fun t => ¬t ∈ acc := by
        simp [List.filter_cons, h]
      rw [hsf, List.foldl_cons, insertUnique, if_pos h, foldl_insertUnique_eq rest acc]
    · have hsf : ((s :: rest).filter fun t => ¬t ∈ acc) =
          s :: (rest.filter fun t => ¬t ∈ acc) := by
        simp [List.filter_cons, h]
      have hfil : (rest.filter fun t => ¬t ∈ acc ++ [s]) =
          ((rest.filter fun t => ¬t ∈ acc).filter fun t => ¬t = s) := by
        rw [List.filter_filter]
        apply List.filter_congr
        intro t _
        simp only [List.mem_append, List.mem_singleton, decide_not]
        cases ht1 : decide (t ∈ acc) <;> cases ht2 : decide (t = s) <;> simp_all
      rw [hsf, specDistinct_cons, List.foldl_cons, insertUnique, if_neg h,
        foldl_insertUnique_eq rest (acc ++ [s]), hfil]
      simp

/-! ## Holiday placement facts -/

/-- The JS accessors recover the components of a constructed date
(February excluded). -/
theorem components_daysFromCivil (y m d : Int)
    (hm1 : 1 ≤ m) (hm2 : m ≤ 12) (hm3 : m ≠ 2) (hd1 : 1 ≤ d)
    (hd2 : d ≤ if m = 4 ∨ m = 6 ∨ m = 9 ∨ m = 11 then 30 else 31) :
    getFullYear (daysFromCivil y m d) = y ∧
      getMonth (daysFromCivil y m d) = m - 1 ∧
      getDate (daysFromCivil y m d) = d := by
  have h := civilFromDays_daysFromCivil y m d hm1 hm2 hm3 hd1 hd2
  rw [getFullYear, getMonth, getDate, h]
  exact ⟨rfl, rfl, rfl⟩

theorem daysFromCivil_sub (y m d k : Int) :
    daysFromCivil y m d - k = daysFromCivil y m (d - k) := by
  rw [show d - k = d + -k by ring, daysFromCivil_shift]
  ring

/-- The Memorial Day walk lands on one of May 25–31 of the same year. -/
theorem memorialDay_form (y : Int) :
    ∃ s : Nat, s ≤ 6 ∧
      walkBackTo 1 7 (daysFromCivil y 5 31) = daysFromCivil y 5 (31 - (s : Int)) := by
  obtain ⟨he, _⟩ := walkBackTo_eq 1 (by norm_num) (by norm_num) 7
    (daysFromCivil y 5 31) (le_trans (stepsBack_le _ _) (by norm_num))
  exact ⟨stepsBack 1 (daysFromCivil y 5 31), stepsBack_le _ _,
    by rw [he, daysFromCivil_sub]⟩

/-- The Labor Day walk lands on one of Sep 1–7 of the same year. -/
theorem laborDay_form (y : Int) :
    ∃ s : Nat, s ≤ 6 ∧
      walkFwdTo 1 7 (daysFromCivil y 9 1) = daysFromCivil y 9 (1 + (s : Int)) := by
  obtain ⟨he, _⟩ := walkFwdTo_eq 1 (by norm_num) (by norm_num) 7
    (daysFromCivil y 9 1) (le_trans (stepsFwd_le _ _) (by norm_num))
  exact ⟨stepsFwd 1 (daysFromCivil y 9 1), stepsFwd_le _ _,
    by rw [he, daysFromCivil_shift]⟩

/-- The Thanksgiving computation lands on one of Nov 22–28 of the same
year. -/
theorem thanksgiving_form (y : Int) :
    ∃ s : Nat, s ≤ 6 ∧
      walkFwdTo 4 7 (daysFromCivil y 11 1) + 21 =
        daysFromCivil y 11 (22 + (s : Int)) := by
  obtain ⟨he, _⟩ := walkFwdTo_eq 4 (by norm_num) (by norm_num) 7
    (daysFromCivil y 11 1) (le_trans (stepsFwd_le _ _) (by norm_num))
  refine ⟨stepsFwd 4 (daysFromCivil y 11 1), stepsFwd_le _ _, ?_⟩
  rw [he, show (22 : Int) + (stepsFwd 4 (daysFromCivil y 11 1) : Int) =
    1 + ((stepsFwd 4 (daysFromCivil y 11 1) : Int) + 21) by ring, daysFromCivil_shift]
  ring

/-! ## The claims -/

/-- C1.  For every date `d`, the week anchor is a Monday, `d` minus the
anchor lies in [0, 6] days, and it is 6 exactly when `d` is a Sunday. -/
theorem claim_C1 (d : Int) :
    jsDay (weekAnchor d) = 1 ∧ 0 ≤ d - weekAnchor d ∧ d - weekAnchor d ≤ 6 ∧
      (d - weekAnchor d = 6 ↔ jsDay d = 0) := by
  simp only [weekAnchor, mondayOffset, jsDay]
  split_ifs <;> omega

/-- C6.  For every year, `getHolidays` consists of the three fixed holidays
Jan 1 / Jul 4 / Dec 25 and the three floating ones computed by the weekday
walks (backward from May 31 to a Monday; forward from Sep 1 to a Monday;
forward from Nov 1 to a Thursday, plus 21 days); for 2024 the floating ones
are May 27, Sep 2 and Nov 28. -/
theorem claim_C6 (y : Int) :
    getHolidays y =
      [ { name := "New Year's Day", date := daysFromCivil y 1 1 },
        { name := "Memorial Day", date := walkBackTo 1 7 (daysFromCivil y 5 31) },
        { name := "Independence Day", date := daysFromCivil y 7 4 },
        { name := "Labor Day", date := walkFwdTo 1 7 (daysFromCivil y 9 1) },
        { name := "Thanksgiving", date := walkFwdTo 4 7 (daysFromCivil y 11 1) + 21 },
        { name := "Christmas", date := daysFromCivil y 12 25 } ] ∧
    walkBackTo 1 7 (daysFromCivil 2024 5 31) = daysFromCivil 2024 5 27 ∧
    walkFwdTo 1 7 (daysFromCivil 2024 9 1) = daysFromCivil 2024 9 2 ∧
    walkFwdTo 4 7 (daysFromCivil 2024 11 1) + 21 = daysFromCivil 2024 11 28 ∧
    jsDay (daysFromCivil 2024 5 27) = 1 ∧
    jsDay (daysFromCivil 2024 9 2) = 1 ∧
    jsDay (daysFromCivil 2024 11 28) = 4 ∧
    civilFromDays (daysFromCivil y 1 1) = (y, 1, 1) ∧
    civilFromDays (daysFromCivil y 7 4) = (y, 7, 4) ∧
    civilFromDays (daysFromCivil y 12 25) = (y, 12, 25) := by
  refine ⟨rfl, by decide, by decide, by decide, by decide, by decide, by decide,
    ?_, ?_, ?_⟩
  · exact civilFromDays_daysFromCivil y 1 1 (by norm_num) (by norm_num)
      (by norm_num) (by norm_num) (by norm_num)
  · exact civilFromDays_daysFromCivil y 7 4 (by norm_num) (by norm_num)
      (by norm_num) (by norm_num) (by norm_num)
  · exact civilFromDays_daysFromCivil y 12 25 (by norm_num) (by norm_num)
      (by norm_num) (by norm_num) (by norm_num)

/-- C10.  Each of the three floating-holiday walk loops exits after at most 6
one-day steps (any 7 consecutive days contain every weekday), so the fuel of
7 is never exhausted and `getHolidays` is total, returning its 6 entries. -/
theorem claim_C10 (d year : Int) :
    (stepsBack 1 d ≤ 6 ∧ walkBackTo 1 7 d = d - stepsBack 1 d ∧
      jsDay (walkBackTo 1 7 d) = 1) ∧
    (stepsFwd 1 d ≤ 6 ∧ walkFwdTo 1 7 d = d + stepsFwd 1 d ∧
      jsDay (walkFwdTo 1 7 d) = 1) ∧
    (stepsFwd 4 d ≤ 6 ∧ walkFwdTo 4 7 d = d + stepsFwd 4 d ∧
      jsDay (walkFwdTo 4 7 d) = 4) ∧
    (getHolidays year).length = 6 := by
  obtain ⟨hb1, hb2⟩ := walkBackTo_eq 1 (by norm_num) (by norm_num) 7 d
    (le_trans (stepsBack_le _ _) (by norm_num))
  obtain ⟨hf1, hf2⟩ := walkFwdTo_eq 1 (by norm_num) (by norm_num) 7 d
    (le_trans (stepsFwd_le _ _) (by norm_num))
  obtain ⟨ht1, ht2⟩ := walkFwdTo_eq 4 (by norm_num) (by norm_num) 7 d
    (le_trans (stepsFwd_le _ _) (by norm_num))
  exact ⟨⟨stepsBack_le _ _, hb1, by rw [hb1]; exact hb2⟩,
    ⟨stepsFwd_le _ _, hf1, by rw [hf1]; exact hf2⟩,
    ⟨stepsFwd_le _ _, ht1, by rw [ht1]; exact ht2⟩, rfl⟩

/-- C7.  `isHoliday` matches only month and day-of-month against the
holidays of the date's own year, returning the first match in list order:
Jan 1 of any year yields New Year's Day (the first list entry), and Dec 26
of any year yields none. -/
theorem claim_C7 (y : Int) :
    isHoliday (daysFromCivil y 1 1) =
      some { name := "New Year's Day", date := daysFromCivil y 1 1 } ∧
    isHoliday (daysFromCivil y 12 26) = none := by
  constructor
  · have hc := components_daysFromCivil y 1 1 (by norm_num) (by norm_num)
      (by norm_num) (by norm_num) (by decide)
    simp only [isHoliday]
    rw [hc.1]
    simp only [getHolidays]
    exact List.find?_cons_of_pos _ (by simp)
  · have hc := components_daysFromCivil y 12 26 (by norm_num) (by norm_num)
      (by norm_num) (by norm_num) (by decide)
    obtain ⟨s1, hs1, hm1⟩ := memorialDay_form y
    obtain ⟨s2, hs2, hm2⟩ := laborDay_form y
    obtain ⟨s3, hs3, hm3⟩ := thanksgiving_form y
    have hNY := components_daysFromCivil y 1 1 (by norm_num) (by norm_num)
      (by norm_num) (by norm_num) (by decide)
    have hMD := components_daysFromCivil y 5 (31 - (s1 : Int)) (by norm_num)
      (by norm_num) (by norm_num) (by omega) (by rw [if_neg (by norm_num)]; omega)
    have hID := components_daysFromCivil y 7 4 (by norm_num) (by norm_num)
      (by norm_num) (by norm_num) (by decide)
    have hLD := components_daysFromCivil y 9 (1 + (s2 : Int)) (by norm_num)
      (by norm_num) (by norm_num) (by omega) (by rw [if_pos (by norm_num)]; omega)
    have hTG := components_daysFromCivil y 11 (22 + (s3 : Int)) (by norm_num)
      (by norm_num) (by norm_num) (by omega) (by rw [if_pos (by norm_num)]; omega)
    have hXM := components_daysFromCivil y 12 25 (by norm_num) (by norm_num)
      (by norm_num) (by norm_num) (by decide)
    simp only [isHoliday]
    rw [hc.1]
    rw [List.find?_eq_none]
    intro x hx
    simp only [getHolidays, List.mem_cons, List.not_mem_nil, or_false] at hx
    rcases hx with rfl | rfl | rfl | rfl | rfl | rfl
    · simp only [hc.2.1, hc.2.2, hNY.2.1, hNY.2.2, Bool.and_eq_true, beq_iff_eq]
      omega
    · simp only [hm1, hc.2.1, hc.2.2, hMD.2.1, hMD.2.2, Bool.and_eq_true,
        beq_iff_eq]
      omega
    · simp only [hc.2.1, hc.2.2, hID.2.1, hID.2.2, Bool.and_eq_true, beq_iff_eq]
      omega
    · simp only [hm2, hc.2.1, hc.2.2, hLD.2.1, hLD.2.2, Bool.and_eq_true,
        beq_iff_eq]
      omega
    · simp only [hm3, hc.2.1, hc.2.2, hTG.2.1, hTG.2.2, Bool.and_eq_true,
        beq_iff_eq]
      omega
    · simp only [hc.2.1, hc.2.2, hXM.2.1, hXM.2.2, Bool.and_eq_true, beq_iff_eq]
      omega

theorem processRecords_weekStart_nodup (rows : List Appointment) (today : Int) :
    ((processRecords rows today).weeks.map WeekData.weekStart).Nodup := by
  have hperm : List.Perm (sortWeeks ((groupByWeek rows).map fun p =>
      { weekStart := p.1
        appointments := groupByProvider p.2
        isCurrent := p.1 == weekAnchor today : WeekData }))
      ((groupByWeek rows).map fun p =>
      { weekStart := p.1
        appointments := groupByProvider p.2
        isCurrent := p.1 == weekAnchor today : WeekData }) :=
    List.perm_insertionSort weekLE _
  exact ((hperm.map WeekData.weekStart).nodup_iff).mpr (weeklyData_nodup rows today)

/-- C2.  The day-cell lookup does not return the count of the appointment
dated `weekStart + offset`: the cell at offset 0 of a week whose only
appointment (provider "A", count 5) is dated exactly `weekStart` shows 0,
and indeed no cell of the week shows that appointment; instead, the cell at
offset 0 picks up an appointment dated `weekStart + 2`, exhibiting the
code's two-day shift (`date = weekStart + i + 1`, matched against
`date + 1`). -/
theorem claim_C2 :
    dayCellCount
        { weekStart := daysFromCivil 2024 6 10
          appointments := [("A",
            [{ date := daysFromCivil 2024 6 10, provider := "A", patientCount := 5 }])]
          isCurrent := false } "A" 0 = 0 ∧
    (List.range 7).all (fun i =>
      dayCellCount
        { weekStart := daysFromCivil 2024 6 10
          appointments := [("A",
            [{ date := daysFromCivil 2024 6 10, provider := "A", patientCount := 5 }])]
          isCurrent := false } "A" i == 0) = true ∧
    ({ date := daysFromCivil 2024 6 12, provider := "A", patientCount := 5
        : Appointment }).date = daysFromCivil 2024 6 10 + 2 ∧
    dayCellCount
        { weekStart := daysFromCivil 2024 6 10
          appointments := [("A",
            [{ date := daysFromCivil 2024 6 12, provider := "A", patientCount := 5 }])]
          isCurrent := false } "A" 0 = 5 := by
  refine ⟨by decide, by decide, by decide, by decide⟩

/-- C3.  Every appointment stored in a bucket, under any provider, is dated
within the bucket's closed 7-day range `[weekStart, weekStart + 6]`. -/
theorem claim_C3 (rows : List Appointment) (today : Int) :
    ∀ w ∈ (processRecords rows today).weeks, ∀ pr ∈ w.appointments,
      ∀ a ∈ pr.2, w.weekStart ≤ a.date ∧ a.date ≤ w.weekStart + 6 :=
  processRecords_dates_in_range rows today

theorem claim_C3_witness :
    daysFromCivil 2024 6 10 ≤ daysFromCivil 2024 6 10 ∧
      daysFromCivil 2024 6 10 ≤ daysFromCivil 2024 6 10 + 6 :=
  claim_C3 [{ date := daysFromCivil 2024 6 10, provider := "A", patientCount := 5 }] 0
    { weekStart := daysFromCivil 2024 6 10
      appointments := [("A",
        [{ date := daysFromCivil 2024 6 10, provider := "A", patientCount := 5 }])]
      isCurrent := false } (by decide)
    ("A", [{ date := daysFromCivil 2024 6 10, provider := "A", patientCount := 5 }])
    (by decide)
    { date := daysFromCivil 2024 6 10, provider := "A", patientCount := 5 } (by decide)

/-- C4.  The bucket sequence is strictly ascending by `weekStart`, so no two
buckets share a `weekStart`. -/
theorem claim_C4 (rows : List Appointment) (today : Int) :
    List.Pairwise (fun a b => a.weekStart < b.weekStart)
      (processRecords rows today).weeks :=
  processRecords_weeks_strict_sorted rows today

/-- C5.  At most one bucket is current, and a bucket is current exactly when
its `weekStart` equals the week anchor of `today` computed at bucketing
time. -/
theorem claim_C5 (rows : List Appointment) (today : Int) :
    ((processRecords rows today).weeks.filter fun w => w.isCurrent).length ≤ 1 ∧
    ∀ w ∈ (processRecords rows today).weeks,
      (w.isCurrent = true ↔ w.weekStart = weekAnchor today) :=
  ⟨filter_current_len (weekAnchor today) _
      (processRecords_weekStart_nodup rows today)
      (processRecords_isCurrent_iff rows today),
    processRecords_isCurrent_iff rows today⟩

/-- C8.  The provider set is the distinct `provider` values in order of
first occurrence, duplicates removed and empty (falsy) values excluded. -/
theorem claim_C8 (rows : List Appointment) :
    uniqueProviders rows =
      (specDistinct (rows.map fun r => r.provider)).filter fun s => ¬s = "" := by
  simp only [uniqueProviders]
  rw [foldl_insertUnique_eq (rows.map fun r => r.provider) []]
  have hid : ((rows.map fun r => r.provider).filter fun s => ¬s ∈ ([] : List String)) =
      rows.map fun r => r.provider :=
    List.filter_eq_self.mpr (fun a _ => by simp)
  rw [hid]
  simp

/-- C9.  A load whose input cannot be read or parsed reaches the top-level
catch: it is only logged and the prior state (index, weeks, providers) is
returned unchanged — no partial update. -/
theorem claim_C9 (st : ViewerState) (e : String) (today : Int) :
    processCSV st (Except.error e) today = st := rfl

end PSV
